import Mathlib

/-!
Verification of the signing-service repository (Go).

The development shallowly embeds the domain layer (`domain` package:
`SignatureDevice`, `SignTransaction`, `ParseSecuredData`, `Clone`,
`NewSignatureDevice`, `ValidateID`), the in-memory repository
(`persistence.InMemoryDeviceRepository`) and the relevant parts of the
HTTP handler layer (`api.DeviceHandler`).  Go byte slices are `List Nat`
(each element a byte value), Go `int` is `Int` (the counters involved
never approach the 64-bit range, so wraparound is not modelled, but the
64-bit range check of `strconv.Atoi` is), Go strings are Lean `String`
and `[]byte(s)` is the UTF-8 byte expansion.  Cryptographic signing is
nondeterministic IO in the source (random readers); it is embedded by
quantifying over the possible outcomes of `GetSigner` and `Signer.Sign`,
which the domain code only consumes through their `(value, err)` results.
-/

namespace SigningService

/-! ### Bytes and base64 (Go `encoding/base64`, `StdEncoding`) -/

/-- UTF-8 byte expansion of a single code point, as Go `[]byte(string)`
performs it. -/
def utf8Bytes (c : Nat) : List Nat :=
  if c < 0x80 then [c]
  else if c < 0x800 then [0xC0 + c / 64, 0x80 + c % 64]
  else if c < 0x10000 then [0xE0 + c / 4096, 0x80 + (c / 64) % 64, 0x80 + c % 64]
  else [0xF0 + c / 262144, 0x80 + (c / 4096) % 64, 0x80 + (c / 64) % 64, 0x80 + c % 64]

/-- Go `[]byte(s)`: the UTF-8 bytes of a string. -/
def strBytes (s : String) : List Nat :=
  (s.data.map (fun c => utf8Bytes c.toNat)).flatten

/-- The standard base64 alphabet used by Go `base64.StdEncoding`. -/
def base64Alphabet : List Char :=
  "ABCDEFGHIJKLMNOPQRSTUVWXYZabcdefghijklmnopqrstuvwxyz0123456789+/".data

/-- Index into the base64 alphabet. -/
def b64c (n : Nat) : Char := base64Alphabet.getD n 'A'

/-- Core of Go `base64.StdEncoding.EncodeToString`: groups of three bytes
become four alphabet characters; a trailing group of one or two bytes is
padded with `=`. -/
def base64Chars : List Nat → List Char
  | b1 :: b2 :: b3 :: rest =>
      b64c (b1 / 4) :: b64c ((b1 % 4) * 16 + b2 / 16) ::
      b64c ((b2 % 16) * 4 + b3 / 64) :: b64c (b3 % 64) :: base64Chars rest
  | [b1, b2] =>
      [b64c (b1 / 4), b64c ((b1 % 4) * 16 + b2 / 16), b64c ((b2 % 16) * 4), '=']
  | [b1] =>
      [b64c (b1 / 4), b64c ((b1 % 4) * 16), '=', '=']
  | [] => []

/-- Go `base64.StdEncoding.EncodeToString`. -/
def base64Encode (bs : List Nat) : String := String.mk (base64Chars bs)

/-! ### Decimal printing (Go `fmt` verb `%d`) and parsing (Go `strconv.Atoi`) -/

/-- The ASCII digit for `n < 10`. -/
def digitChar (n : Nat) : Char := Char.ofNat (48 + n)

/-- Fuel-driven decimal printer; `fuel` bounds the number of digits. -/
def natDecimalAux : Nat → Nat → List Char
  | 0, _ => []
  | fuel + 1, n =>
      if n < 10 then [digitChar n]
      else natDecimalAux fuel (n / 10) ++ [digitChar (n % 10)]

/-- Decimal digit string of a natural number (no sign, no leading zeros
except for `0` itself). -/
def natDecimal (n : Nat) : List Char := natDecimalAux (n + 1) n

/-- Go `fmt.Sprintf` verb `%d` on an `int` value. -/
def goIntRepr (n : Int) : String :=
  if n < 0 then String.mk ('-' :: natDecimal (-n).toNat)
  else String.mk (natDecimal n.toNat)

/-- Accumulating decimal scan: consumes the whole list, failing on the
first non-digit character (Go `strconv.ParseUint` digit loop). -/
def digitsValCore : List Char → Nat → Option Nat
  | [], acc => some acc
  | c :: cs, acc =>
      if c.isDigit then digitsValCore cs (acc * 10 + (c.toNat - 48)) else none

/-- Value of a non-empty all-digit character list; `none` on an empty
list or on any non-digit character. -/
def digitsVal (cs : List Char) : Option Nat :=
  match cs with
  | [] => none
  | _ :: _ => digitsValCore cs 0

/-- Largest Go `int` (64-bit) value. -/
def maxInt64 : Nat := 2 ^ 63 - 1

/-- Character-level core of Go `strconv.Atoi`: optional single leading
sign, then one or more decimal digits, within the signed 64-bit
range. -/
def goAtoiChars : List Char → Option Int
  | [] => none
  | c :: cs =>
      if c = '+' then
        (digitsVal cs).bind fun n => if n ≤ maxInt64 then some (Int.ofNat n) else none
      else if c = '-' then
        (digitsVal cs).bind fun n => if n ≤ 2 ^ 63 then some (-(Int.ofNat n)) else none
      else
        (digitsVal (c :: cs)).bind fun n => if n ≤ maxInt64 then some (Int.ofNat n) else none

/-- Go `strconv.Atoi`. -/
def goAtoi (s : String) : Option Int := goAtoiChars s.data

/-! ### Go `strings.SplitN(s, "_", 3)` -/

/-- Splits a character list at its first underscore: `some (a, b)` with
`cs = a ++ underscore :: b` and no underscore in `a`, or `none` when the
list has no underscore. -/
def breakUnderscore : List Char → Option (List Char × List Char)
  | [] => none
  | c :: cs =>
      if c = '_' then some ([], cs)
      else
        match breakUnderscore cs with
        | none => none
        | some (a, b) => some (c :: a, b)

/-- Go `strings.SplitN(s, "_", 3)`: at most three parts, the third part
keeps every remaining underscore. -/
def goSplitUnderscore3 (cs : List Char) : List (List Char) :=
  match breakUnderscore cs with
  | none => [cs]
  | some (a, rest) =>
      match breakUnderscore rest with
      | none => [a, rest]
      | some (b, rest2) => [a, b, rest2]

/-! ### `domain.ParseSecuredData` and the secured-data composition -/

/-- `domain.ParseSecuredData`: split on the first two underscores into
exactly three parts, then parse the first part with `strconv.Atoi`. -/
def ParseSecuredData (securedData : String) : Except String (Int × String × String) :=
  match goSplitUnderscore3 securedData.data with
  | [p0, p1, p2] =>
      match goAtoi (String.mk p0) with
      | none => .error "invalid signature counter"
      | some counter => .ok (counter, String.mk p1, String.mk p2)
  | _ => .error "invalid secured data format"

/-- The secured-data string built by `domain.SignTransaction`:
`fmt.Sprintf("%d_%s_%s", d.SignatureCounter, data, d.LastSignature)`. -/
def composeSecuredData (counter : Int) (data lastSignature : String) : String :=
  goIntRepr counter ++ "_" ++ data ++ "_" ++ lastSignature

/-! ### `domain.SignatureDevice` and the chaining protocol -/

/-- `domain.SignatureDevice` (value view).  The Go byte slices
`PublicKey` and `PrivateKey` may be `nil`, modelled by `Option`; the
`sync.Mutex` field has no value-level content. -/
structure SignatureDevice where
  ID : String
  Label : String
  Algorithm : String
  SignatureCounter : Int
  LastSignature : String
  PublicKey : Option (List Nat)
  PrivateKey : Option (List Nat)
deriving DecidableEq, Repr

/-- Outcome of `domain.SignatureDevice.GetSigner` followed by the uses of
the obtained signer: either an error (unmarshal failure or unsupported
algorithm) or a signing function from message bytes to signature bytes
or a signing error.  The source obtains this value from cryptographic IO
(`x509` parsing, `rsa`/`ecdsa` signing with `rand.Reader`); the
embedding quantifies over its possible results. -/
abbrev SignerResult : Type := Except String (List Nat → Except String (List Nat))

/-- `domain.NewSignatureDevice`, with the key-generation and marshalling
IO (`crypto.RSAGenerator`/`ECCGenerator` plus the marshalers) abstracted
by its `(publicKey, privateKey, err)` outcome `keygen`. -/
def NewSignatureDevice (keygen : Except String (Option (List Nat) × Option (List Nat)))
    (id algorithm label : String) : Except String SignatureDevice :=
  if id = "" then .error "device ID cannot be empty"
  else if algorithm ≠ "RSA" ∧ algorithm ≠ "ECC" then
    .error ("unsupported algorithm: " ++ algorithm)
  else
    match keygen with
    | .error e => .error ("failed to generate or marshal key pair: " ++ e)
    | .ok (pub, priv) =>
        .ok { ID := id, Label := label, Algorithm := algorithm,
              SignatureCounter := 0,
              LastSignature := base64Encode (strBytes id),
              PublicKey := pub, PrivateKey := priv }

/-- `domain.SignatureDevice.SignTransaction`.  Returns the pair of the
Go results `(signature, securedData, err)` and the device state after
the call (the receiver is mutated in place in the source). -/
def SignTransaction (signerRes : SignerResult) (d : SignatureDevice) (data : String) :
    Except String (String × String) × SignatureDevice :=
  let securedData := composeSecuredData d.SignatureCounter data d.LastSignature
  match signerRes with
  | .error e => (.error ("failed to get signer: " ++ e), d)
  | .ok sign =>
      match sign (strBytes securedData) with
      | .error e => (.error ("failed to sign data: " ++ e), d)
      | .ok signature =>
          let encodedSignature := base64Encode signature
          (.ok (encodedSignature, securedData),
           { d with LastSignature := encodedSignature,
                    SignatureCounter := d.SignatureCounter + 1 })

/-- A sequence of `SignTransaction` calls on one device, each with its
own signer outcome and data; returns the list of per-call results and
the final device state. -/
def runSigns : List (SignerResult × String) → SignatureDevice →
    List (Except String (String × String)) × SignatureDevice
  | [], d => ([], d)
  | (sr, data) :: rest, d =>
      let step := SignTransaction sr d data
      let tail := runSigns rest step.2
      (step.1 :: tail.1, tail.2)

/-! ### `persistence.InMemoryDeviceRepository` (value view)

The Go `map[string]*domain.SignatureDevice` is embedded as an
association list keyed by device id.  `Clone` copies every field of the
record into a fresh record with fresh slice backing arrays; at the value
level it is the identity, so the value view stores the device itself
(the heap view below models the aliasing content of `Clone`). -/

/-- Value view of the repository map. -/
abbrev Repo : Type := List (String × SignatureDevice)

/-- Go map lookup `r.devices[id]`. -/
def lookupR (r : Repo) (id : String) : Option SignatureDevice :=
  match r with
  | [] => none
  | (k, d) :: rest => if k = id then some d else lookupR rest id

/-- Go map assignment `r.devices[id] = d` for a key already present:
replaces every binding of the key (the invariant keeps keys unique). -/
def replaceR (r : Repo) (id : String) (d : SignatureDevice) : Repo :=
  match r with
  | [] => []
  | (k, d0) :: rest =>
      if k = id then (k, d) :: replaceR rest id d
      else (k, d0) :: replaceR rest id d

/-- Go `delete(r.devices, id)`. -/
def removeR (r : Repo) (id : String) : Repo :=
  match r with
  | [] => []
  | (k, d0) :: rest =>
      if k = id then removeR rest id else (k, d0) :: removeR rest id

/-- `InMemoryDeviceRepository.Create`.  The `device` argument is
`Option` to model the Go `nil` pointer. -/
def repoCreate (r : Repo) (device : Option SignatureDevice) : Except String Repo :=
  match device with
  | none => .error "device cannot be nil"
  | some d =>
      if d.ID = "" then .error "device ID cannot be empty"
      else if (lookupR r d.ID).isSome then .error "device with this ID already exists"
      else .ok (r ++ [(d.ID, d)])

/-- `InMemoryDeviceRepository.Get`. -/
def repoGet (r : Repo) (id : String) : Except String SignatureDevice :=
  match lookupR r id with
  | none => .error "device not found"
  | some d => .ok d

/-- `InMemoryDeviceRepository.Update`. -/
def repoUpdate (r : Repo) (device : Option SignatureDevice) : Except String Repo :=
  match device with
  | none => .error "device cannot be nil"
  | some d =>
      if d.ID = "" then .error "device ID cannot be empty"
      else if (lookupR r d.ID).isSome then .ok (replaceR r d.ID d)
      else .error "device not found"

/-- `InMemoryDeviceRepository.Delete`. -/
def repoDelete (r : Repo) (id : String) : Except String Repo :=
  if (lookupR r id).isSome then .ok (removeR r id)
  else .error "device not found"

/-! ### API layer (`api.DeviceHandler`): projections and handlers -/

/-- `api.CreateDeviceRequest`. -/
structure CreateDeviceRequest where
  ID : String
  Algorithm : String
  Label : String
deriving DecidableEq, Repr

/-- `api.CreateDeviceResponse`: the read-only projection returned by the
create, get and list endpoints.  It has exactly the fields id, label,
algorithm, signature counter and public key; the private key has no
field here (and on `domain.SignatureDevice` it carries the `json:"-"`
tag). -/
structure CreateDeviceResponse where
  ID : String
  Label : String
  Algorithm : String
  SignatureCounter : Int
  PublicKey : Option (List Nat)
deriving DecidableEq, Repr

/-- The projection built in `CreateDevice`, `GetDevice` and
`ListDevices` (api/device.go, the `CreateDeviceResponse{...}` literal). -/
def toCreateDeviceResponse (d : SignatureDevice) : CreateDeviceResponse :=
  { ID := d.ID, Label := d.Label, Algorithm := d.Algorithm,
    SignatureCounter := d.SignatureCounter, PublicKey := d.PublicKey }

/-- Hexadecimal digit (lower case), as used by the `encoding/json`
escapes. -/
def hexDigit (n : Nat) : Char :=
  if n < 10 then digitChar n else Char.ofNat (87 + n)

/-- Escaping of one character of a JSON string by Go `encoding/json`
with its default HTML escaping. -/
def jsonEscapeChar (c : Char) : List Char :=
  if c = '"' then ['\\', '"']
  else if c = '\\' then ['\\', '\\']
  else if c = '\n' then ['\\', 'n']
  else if c = '\r' then ['\\', 'r']
  else if c = '\t' then ['\\', 't']
  else if c.toNat < 32 then
    ['\\', 'u', '0', '0', hexDigit (c.toNat / 16), hexDigit (c.toNat % 16)]
  else if c = '<' then ['\\', 'u', '0', '0', '3', 'c']
  else if c = '>' then ['\\', 'u', '0', '0', '3', 'e']
  else if c = '&' then ['\\', 'u', '0', '0', '2', '6']
  else [c]

/-- A JSON string literal as Go `encoding/json` renders it. -/
def jsonStr (s : String) : String :=
  "\"" ++ String.mk ((s.data.map jsonEscapeChar).flatten) ++ "\""

/-- The byte-level JSON rendering of a `CreateDeviceResponse` by Go
`json.Marshal`: fields in struct order under their tags, the `[]byte`
public key as a base64 string (`null` when the slice is nil). -/
def renderCreateDeviceResponse (resp : CreateDeviceResponse) : String :=
  "\x7b\"id\":" ++ jsonStr resp.ID ++
  ",\"label\":" ++ jsonStr resp.Label ++
  ",\"algorithm\":" ++ jsonStr resp.Algorithm ++
  ",\"signature_counter\":" ++ goIntRepr resp.SignatureCounter ++
  ",\"public_key\":" ++
  (match resp.PublicKey with
   | none => "null"
   | some bs => jsonStr (base64Encode bs)) ++ "\x7d"

/-- `domain.ValidateID`, with the external `uuid.Parse` of the
google/uuid library abstracted by the predicate `uuidOk`. -/
def ValidateID (uuidOk : String → Bool) (id : String) : Except String Unit :=
  if uuidOk id then .ok () else .error "invalid UUID format"

/-- Go `strings.ToUpper` (the handler only compares the result against
the ASCII strings RSA and ECC). -/
def goToUpper (s : String) : String := String.mk (s.data.map Char.toUpper)

/-- Outcome of the create-device endpoint. -/
inductive CreateOutcome where
  | badRequest (msgs : List String)
  | internalError (msgs : List String)
  | created (resp : CreateDeviceResponse) (repo : Repo)
deriving DecidableEq, Repr

/-- The tail of `DeviceHandler.CreateDevice` after the id has been
chosen: algorithm normalization and check, `domain.NewSignatureDevice`,
`repository.Create`, projection of the result. -/
def createDeviceCore (keygen : Except String (Option (List Nat) × Option (List Nat)))
    (r : Repo) (id alg0 label : String) : CreateOutcome :=
  if goToUpper alg0 ≠ "RSA" ∧ goToUpper alg0 ≠ "ECC" then
    .badRequest ["Invalid algorithm. Supported algorithms: RSA, ECC"]
  else
    match NewSignatureDevice keygen id (goToUpper alg0) label with
    | .error e => .internalError ["Failed to create signature device: " ++ e]
    | .ok device =>
        match repoCreate r (some device) with
        | .error e => .internalError ["Failed to store signature device: " ++ e]
        | .ok r' => .created (toCreateDeviceResponse device) r'

/-- `DeviceHandler.CreateDevice` (after request decoding): an empty
request id is replaced by a freshly generated UUID (`uuid.New`,
abstracted by `freshId`), a non-empty id must pass `domain.ValidateID`
before anything else runs. -/
def createDeviceHandler (uuidOk : String → Bool) (freshId : String)
    (keygen : Except String (Option (List Nat) × Option (List Nat)))
    (r : Repo) (req : CreateDeviceRequest) : CreateOutcome :=
  if req.ID = "" then createDeviceCore keygen r freshId req.Algorithm req.Label
  else
    match ValidateID uuidOk req.ID with
    | .error e => .badRequest [e]
    | .ok _ => createDeviceCore keygen r req.ID req.Algorithm req.Label

/-- The fetch step of `DeviceHandler.SignTransaction`:
`repository.Get` hands back a clone of the stored device. -/
def signFlowFetch (r : Repo) (id : String) : Except String SignatureDevice :=
  repoGet r id

/-- The remainder of `DeviceHandler.SignTransaction` after the fetch:
sign on the fetched in-process copy, then `repository.Update` with the
mutated copy.  `Update` performs no comparison with the stored record
beyond the existence check. -/
def signFlowStore (sr : SignerResult) (r : Repo) (device : SignatureDevice)
    (data : String) : Except String ((String × String) × Repo) :=
  match SignTransaction sr device data with
  | (.error e, _) => .error ("Failed to sign transaction: " ++ e)
  | (.ok out, device') =>
      match repoUpdate r (some device') with
      | .error e => .error ("Failed to update device: " ++ e)
      | .ok r' => .ok (out, r')

/-! ### Heap view of the repository

The defensive-copy behaviour of `domain.Clone` and the store is about
slice aliasing, so here byte slices are references into an explicit
heap: a reference is an index into a list of byte arrays, allocation
appends, and a device record holds optional references in place of its
two byte slices.  Every other part mirrors `persistence/inmemory.go`
literally. -/

/-- The heap: cell `r` holds the byte array behind reference `r`. -/
abbrev Heap : Type := List (List Nat)

/-- Contents of the cell behind a reference. -/
def heapRead : Heap → Nat → List Nat
  | [], _ => []
  | bs :: _, 0 => bs
  | _ :: h, r + 1 => heapRead h r

/-- In-place mutation of the cell behind a reference (a Go slice-element
assignment or `copy` into the slice). -/
def heapWrite : Heap → Nat → List Nat → Heap
  | [], _, _ => []
  | _ :: h, 0, bs => bs :: h
  | b :: h, r + 1, bs => b :: heapWrite h r bs

/-- `domain.SignatureDevice`, heap view: the two byte slices are
references (`none` is the nil slice). -/
structure HDevice where
  ID : String
  Label : String
  Algorithm : String
  SignatureCounter : Int
  LastSignature : String
  PubRef : Option Nat
  PrivRef : Option Nat
deriving DecidableEq, Repr

/-- The references held by a device record. -/
def hrefs (d : HDevice) : List Nat := d.PubRef.toList ++ d.PrivRef.toList

/-- Copying one optional slice in `Clone`: nil stays nil, otherwise a
fresh cell is allocated with a copy of the contents. -/
def hcloneRef (h : Heap) (r? : Option Nat) : Heap × Option Nat :=
  match r? with
  | none => (h, none)
  | some r => (h ++ [heapRead h r], some h.length)

/-- `domain.SignatureDevice.Clone`: all scalar fields copied, each
non-nil byte slice backed by a freshly allocated copy. -/
def hclone (h : Heap) (d : HDevice) : Heap × HDevice :=
  let p := hcloneRef h d.PubRef
  let q := hcloneRef p.1 d.PrivRef
  (q.1, { d with PubRef := p.2, PrivRef := q.2 })

/-- State of the in-memory repository together with the heap. -/
structure HState where
  heap : Heap
  repo : List (String × HDevice)

/-- Go map lookup on the heap view. -/
def hLookup : List (String × HDevice) → String → Option HDevice
  | [], _ => none
  | (k, d) :: rest, id => if k = id then some d else hLookup rest id

/-- Go map assignment for a present key on the heap view. -/
def hReplace : List (String × HDevice) → String → HDevice → List (String × HDevice)
  | [], _, _ => []
  | (k, d0) :: rest, id, d =>
      if k = id then (k, d) :: hReplace rest id d
      else (k, d0) :: hReplace rest id d

/-- `InMemoryDeviceRepository.Get`, heap view: returns a clone of the
stored record. -/
def hGet (st : HState) (id : String) : Except String HDevice × HState :=
  match hLookup st.repo id with
  | none => (.error "device not found", st)
  | some d =>
      let c := hclone st.heap d
      (.ok c.2, { st with heap := c.1 })

/-- Helper of `hListDevices`: clone each record in turn. -/
def hListAux : Heap → List HDevice → Heap × List HDevice
  | h, [] => (h, [])
  | h, d :: ds =>
      let c := hclone h d
      let rest := hListAux c.1 ds
      (rest.1, c.2 :: rest.2)

/-- `InMemoryDeviceRepository.List`, heap view: clones of all stored
records. -/
def hListDevices (st : HState) : List HDevice × HState :=
  let r := hListAux st.heap (st.repo.map (fun kd => kd.2))
  (r.2, { st with heap := r.1 })

/-- `InMemoryDeviceRepository.Create`, heap view: stores a clone of the
argument. -/
def hCreate (st : HState) (device : Option HDevice) : Except String HState :=
  match device with
  | none => .error "device cannot be nil"
  | some d =>
      if d.ID = "" then .error "device ID cannot be empty"
      else if (hLookup st.repo d.ID).isSome then .error "device with this ID already exists"
      else
        let c := hclone st.heap d
        .ok { heap := c.1, repo := st.repo ++ [(d.ID, c.2)] }

/-- `InMemoryDeviceRepository.Update`, heap view: replaces the stored
record wholesale with a clone of the argument. -/
def hUpdate (st : HState) (device : Option HDevice) : Except String HState :=
  match device with
  | none => .error "device cannot be nil"
  | some d =>
      if d.ID = "" then .error "device ID cannot be empty"
      else if (hLookup st.repo d.ID).isSome then
        let c := hclone st.heap d
        .ok { heap := c.1, repo := hReplace st.repo d.ID c.2 }
      else .error "device not found"

/-- The value a caller observes for a heap-view device: every reference
dereferenced. -/
def derefDevice (h : Heap) (d : HDevice) : SignatureDevice :=
  { ID := d.ID, Label := d.Label, Algorithm := d.Algorithm,
    SignatureCounter := d.SignatureCounter, LastSignature := d.LastSignature,
    PublicKey := d.PubRef.map (heapRead h),
    PrivateKey := d.PrivRef.map (heapRead h) }

/-- Observable content of the whole store: what the sequence of all
possible subsequent `Get` calls can see. -/
def repoView (st : HState) : List (String × SignatureDevice) :=
  st.repo.map (fun kd => (kd.1, derefDevice st.heap kd.2))

/-- All references of a device are valid in a heap of length `n`. -/
def refsBelow (n : Nat) (d : HDevice) : Prop := ∀ r ∈ hrefs d, r < n

/-- Well-formed state: every stored record references allocated cells. -/
def wfHState (st : HState) : Prop := ∀ kd ∈ st.repo, refsBelow st.heap.length kd.2

instance (n : Nat) (d : HDevice) : Decidable (refsBelow n d) := by
  unfold refsBelow; infer_instance

instance (st : HState) : Decidable (wfHState st) := by
  unfold wfHState; infer_instance

/-! ### Sample data used by witnesses -/

/-- A concrete device in the state `NewSignatureDevice` produces for the
id `d1` (the chain seed `ZDE=` is `base64("d1")`). -/
def sampleDevice : SignatureDevice :=
  { ID := "d1", Label := "L", Algorithm := "RSA", SignatureCounter := 0,
    LastSignature := "ZDE=", PublicKey := some [1], PrivateKey := some [2] }

/-- A concrete UUID-validity oracle for witnesses: accepts only `u1`. -/
def uuidOkW : String → Bool := fun s => s = "u1"

/-- A concrete key-generation outcome for witnesses. -/
def kgW : Except String (Option (List Nat) × Option (List Nat)) := .ok (some [1], some [2])

/-- A concrete call sequence for witnesses: two calls whose signers
return the raw bytes `[1]` and `[2]`. -/
def callsW : List (SignerResult × String) :=
  [(.ok fun _ => .ok [1], "a"), (.ok fun _ => .ok [2], "b")]

/-! ### Structure of one `SignTransaction` call -/

/-- Unfolding equation for `SignTransaction` on a signer failure. -/
theorem signTransaction_eq_error (e : String) (d : SignatureDevice) (data : String) :
    SignTransaction (.error e) d data = (.error ("failed to get signer: " ++ e), d) := rfl

/-- Unfolding equation for `SignTransaction` with an obtained signer. -/
theorem signTransaction_eq_ok (sign : List Nat → Except String (List Nat))
    (d : SignatureDevice) (data : String) :
    SignTransaction (.ok sign) d data =
      match sign (strBytes (composeSecuredData d.SignatureCounter data d.LastSignature)) with
      | .error e => (.error ("failed to sign data: " ++ e), d)
      | .ok signature =>
          (.ok (base64Encode signature,
                composeSecuredData d.SignatureCounter data d.LastSignature),
           { d with LastSignature := base64Encode signature,
                    SignatureCounter := d.SignatureCounter + 1 }) := rfl

/-- A failed call leaves the receiver untouched. -/
theorem signTransaction_state_of_error (sr : SignerResult) (d : SignatureDevice)
    (data : String) (e : String) (h : (SignTransaction sr d data).1 = .error e) :
    (SignTransaction sr d data).2 = d := by
  cases sr with
  | error e0 => rfl
  | ok sign =>
      cases hs : sign (strBytes (composeSecuredData d.SignatureCounter data d.LastSignature)) with
      | error e1 => simp [signTransaction_eq_ok, hs]
      | ok raw => simp [signTransaction_eq_ok, hs] at h

/-- A successful call returns the base64 signature over the composed
secured data and advances the chain state by exactly one step. -/
theorem signTransaction_state_of_ok (sr : SignerResult) (d : SignatureDevice)
    (data sig sd : String) (h : (SignTransaction sr d data).1 = .ok (sig, sd)) :
    sd = composeSecuredData d.SignatureCounter data d.LastSignature ∧
    (∃ sign raw, sr = .ok sign ∧ sign (strBytes sd) = .ok raw ∧ sig = base64Encode raw) ∧
    (SignTransaction sr d data).2 =
      { d with LastSignature := sig, SignatureCounter := d.SignatureCounter + 1 } := by
  cases sr with
  | error e0 => simp [signTransaction_eq_error] at h
  | ok sign =>
      cases hs : sign (strBytes (composeSecuredData d.SignatureCounter data d.LastSignature)) with
      | error e1 => simp [signTransaction_eq_ok, hs] at h
      | ok raw =>
          simp only [signTransaction_eq_ok, hs, Except.ok.injEq, Prod.mk.injEq] at h ⊢
          obtain ⟨h1, h2⟩ := h
          subst h1; subst h2
          exact ⟨rfl, ⟨sign, raw, rfl, hs, rfl⟩, rfl⟩

/-- Claim C3: `SignTransaction` is all-or-nothing.  If obtaining the
signer from the stored private key or the signing step itself fails, the
call returns an error and the device state (`SignatureCounter` and
`LastSignature` included) is exactly as before; the state is mutated
only on the success path. -/
theorem signTransaction_all_or_nothing (sr : SignerResult) (d : SignatureDevice)
    (data : String) :
    (∀ e, (SignTransaction sr d data).1 = .error e → (SignTransaction sr d data).2 = d) ∧
    (∀ sig sd, (SignTransaction sr d data).1 = .ok (sig, sd) →
       (SignTransaction sr d data).2 =
         { d with LastSignature := sig, SignatureCounter := d.SignatureCounter + 1 }) := by
  constructor
  · intro e he; exact signTransaction_state_of_error sr d data e he
  · intro sig sd h; exact (signTransaction_state_of_ok sr d data sig sd h).2.2

/-- Claim C3, witness: a signer-construction failure on a concrete
device leaves the device state unchanged. -/
theorem signTransaction_all_or_nothing_witness :
    (SignTransaction (.error "bad key") sampleDevice "tx").1 =
      .error "failed to get signer: bad key" ∧
    (SignTransaction (.error "bad key") sampleDevice "tx").2 = sampleDevice := by
  refine ⟨rfl, ?_⟩
  exact (signTransaction_all_or_nothing (.error "bad key") sampleDevice "tx").1
    "failed to get signer: bad key" rfl

/-- Claim C9: the caller-facing projection produced by the create, get
and list responses contains exactly the id, label, algorithm, signature
counter and public key (the `CreateDeviceResponse` structure has no
other field), and neither the projection nor its rendered JSON bytes
depend on the `PrivateKey` field of the device. -/
theorem projection_ignores_private_key :
    ∀ (d : SignatureDevice) (pk : Option (List Nat)),
      toCreateDeviceResponse { d with PrivateKey := pk } = toCreateDeviceResponse d ∧
      renderCreateDeviceResponse (toCreateDeviceResponse { d with PrivateKey := pk }) =
        renderCreateDeviceResponse (toCreateDeviceResponse d) := by
  intro d pk
  exact ⟨rfl, rfl⟩

/-! ### Association-list lemmas for the repository map -/

theorem lookupR_append_self (r : Repo) (id : String) (d : SignatureDevice)
    (h : lookupR r id = none) : lookupR (r ++ [(id, d)]) id = some d := by
  induction r with
  | nil => simp [lookupR]
  | cons kd rest ih =>
      by_cases hk : kd.1 = id
      · exfalso; simp [lookupR, hk] at h
      · simp only [lookupR, hk] at h
        simpa [lookupR, hk] using ih h

theorem lookupR_replaceR_self (r : Repo) (id : String) (d : SignatureDevice)
    (h : (lookupR r id).isSome) : lookupR (replaceR r id d) id = some d := by
  induction r with
  | nil => simp [lookupR] at h
  | cons kd rest ih =>
      by_cases hk : kd.1 = id
      · cases kd; simp_all [lookupR, replaceR]
      · cases kd; simp_all [lookupR, replaceR]

theorem lookupR_removeR_self (r : Repo) (id : String) :
    lookupR (removeR r id) id = none := by
  induction r with
  | nil => rfl
  | cons kd rest ih =>
      cases kd with
      | mk k d0 =>
          by_cases hk : k = id
          · simpa [removeR, hk] using ih
          · simpa [removeR, lookupR, hk] using ih

/-- Claim C7: the error contracts of the in-memory store.  `Create`
rejects a nil device and an empty id (validation errors) and a
duplicate id; `Get` and `Delete` reject an absent id (not found);
`Update` rejects nil and empty-id arguments (validation errors) and an
absent id (not found); in every other case the operation succeeds, with
`Update` replacing the stored record wholesale by its argument. -/
theorem repository_contracts (r : Repo) (d : SignatureDevice) (id : String) :
    (repoCreate r none = .error "device cannot be nil") ∧
    (d.ID = "" → repoCreate r (some d) = .error "device ID cannot be empty") ∧
    (d.ID ≠ "" → (lookupR r d.ID).isSome →
       repoCreate r (some d) = .error "device with this ID already exists") ∧
    (d.ID ≠ "" → lookupR r d.ID = none →
       repoCreate r (some d) = .ok (r ++ [(d.ID, d)]) ∧
       lookupR (r ++ [(d.ID, d)]) d.ID = some d) ∧
    (lookupR r id = none → repoGet r id = .error "device not found") ∧
    (∀ dev, lookupR r id = some dev → repoGet r id = .ok dev) ∧
    (lookupR r id = none → repoDelete r id = .error "device not found") ∧
    ((lookupR r id).isSome →
       repoDelete r id = .ok (removeR r id) ∧ lookupR (removeR r id) id = none) ∧
    (repoUpdate r none = .error "device cannot be nil") ∧
    (d.ID = "" → repoUpdate r (some d) = .error "device ID cannot be empty") ∧
    (d.ID ≠ "" → lookupR r d.ID = none →
       repoUpdate r (some d) = .error "device not found") ∧
    (d.ID ≠ "" → (lookupR r d.ID).isSome →
       repoUpdate r (some d) = .ok (replaceR r d.ID d) ∧
       lookupR (replaceR r d.ID d) d.ID = some d) := by
  refine ⟨rfl, ?_, ?_, ?_, ?_, ?_, ?_, ?_, rfl, ?_, ?_, ?_⟩
  · intro h; simp [repoCreate, h]
  · intro h hs; simp [repoCreate, h, hs]
  · intro h hn
    refine ⟨by simp [repoCreate, h, hn], lookupR_append_self r d.ID d hn⟩
  · intro h; simp [repoGet, h]
  · intro dev h; simp [repoGet, h]
  · intro h; simp [repoDelete, h]
  · intro hs
    refine ⟨by simp [repoDelete, hs], lookupR_removeR_self r id⟩
  · intro h; simp [repoUpdate, h]
  · intro h hn; simp [repoUpdate, h, hn]
  · intro h hs
    refine ⟨by simp [repoUpdate, h, hs], lookupR_replaceR_self r d.ID d hs⟩

/-- Claim C7, witness: the contracts at a concrete one-device store. -/
theorem repository_contracts_witness :
    repoCreate [] (some sampleDevice) = .ok [("d1", sampleDevice)] ∧
    repoGet [("d1", sampleDevice)] "d2" = .error "device not found" ∧
    repoUpdate [("d1", sampleDevice)] (some sampleDevice) = .ok [("d1", sampleDevice)] := by
  have h1 := ((repository_contracts [] sampleDevice "d2").2.2.2.1 (by decide) rfl).1
  have h2 := (repository_contracts [("d1", sampleDevice)] sampleDevice "d2").2.2.2.2.1 rfl
  have h3 := ((repository_contracts [("d1", sampleDevice)] sampleDevice
      "d2").2.2.2.2.2.2.2.2.2.2.2 (by decide) (by decide)).1
  exact ⟨h1, h2, h3⟩

/-! ### The create-device handler -/

/-- `NewSignatureDevice` keeps the requested id. -/
theorem newSignatureDevice_ok_id (kg : Except String (Option (List Nat) × Option (List Nat)))
    (id alg label : String) (dev : SignatureDevice)
    (h : NewSignatureDevice kg id alg label = .ok dev) : dev.ID = id := by
  unfold NewSignatureDevice at h
  split at h
  · exact absurd h (by simp)
  · split at h
    · exact absurd h (by simp)
    · split at h
      · exact absurd h (by simp)
      · simp only [Except.ok.injEq] at h
        rw [← h]

/-- A created response out of `createDeviceCore` carries the id the
core was called with. -/
theorem createDeviceCore_created_id
    (kg : Except String (Option (List Nat) × Option (List Nat)))
    (r : Repo) (id a l : String) (resp : CreateDeviceResponse) (r' : Repo)
    (h : createDeviceCore kg r id a l = .created resp r') : resp.ID = id := by
  unfold createDeviceCore at h
  split at h
  · exact absurd h (by simp)
  · split at h
    · exact absurd h (by simp)
    · rename_i device hnd
      split at h
      · exact absurd h (by simp)
      · simp only [CreateOutcome.created.injEq] at h
        rw [← h.1]
        exact newSignatureDevice_ok_id kg id (goToUpper a) l device hnd

/-- Claim C10: at the public create-device endpoint an empty request id
is not rejected — the handler substitutes a freshly generated UUID and
any created device carries it — while a non-empty request id is passed
on only when `ValidateID` accepts it; otherwise the request fails with
the UUID validation error, and this happens before key generation: the
outcome is the same for every key-generation oracle. -/
theorem create_device_id_validation (uuidOk : String → Bool) (freshId : String)
    (kg kg' : Except String (Option (List Nat) × Option (List Nat)))
    (r : Repo) (req : CreateDeviceRequest) :
    (req.ID = "" →
       createDeviceHandler uuidOk freshId kg r req =
         createDeviceCore kg r freshId req.Algorithm req.Label ∧
       (∀ resp r', createDeviceHandler uuidOk freshId kg r req = .created resp r' →
          resp.ID = freshId)) ∧
    (req.ID ≠ "" → uuidOk req.ID = false →
       createDeviceHandler uuidOk freshId kg r req = .badRequest ["invalid UUID format"] ∧
       createDeviceHandler uuidOk freshId kg r req =
         createDeviceHandler uuidOk freshId kg' r req) ∧
    (req.ID ≠ "" → uuidOk req.ID = true →
       createDeviceHandler uuidOk freshId kg r req =
         createDeviceCore kg r req.ID req.Algorithm req.Label ∧
       (∀ resp r', createDeviceHandler uuidOk freshId kg r req = .created resp r' →
          resp.ID = req.ID)) := by
  refine ⟨?_, ?_, ?_⟩
  · intro h0
    have he : createDeviceHandler uuidOk freshId kg r req =
        createDeviceCore kg r freshId req.Algorithm req.Label := by
      unfold createDeviceHandler
      simp [h0]
    refine ⟨he, ?_⟩
    intro resp r' hc
    rw [he] at hc
    exact createDeviceCore_created_id kg r freshId req.Algorithm req.Label resp r' hc
  · intro h0 hu
    have he : createDeviceHandler uuidOk freshId kg r req =
        .badRequest ["invalid UUID format"] := by
      unfold createDeviceHandler ValidateID
      simp [h0, hu]
    have he' : createDeviceHandler uuidOk freshId kg' r req =
        .badRequest ["invalid UUID format"] := by
      unfold createDeviceHandler ValidateID
      simp [h0, hu]
    exact ⟨he, he.trans he'.symm⟩
  · intro h0 hu
    have he : createDeviceHandler uuidOk freshId kg r req =
        createDeviceCore kg r req.ID req.Algorithm req.Label := by
      unfold createDeviceHandler ValidateID
      simp [h0, hu]
    refine ⟨he, ?_⟩
    intro resp r' hc
    rw [he] at hc
    exact createDeviceCore_created_id kg r req.ID req.Algorithm req.Label resp r' hc

/-- Claim C10, witness: an empty id is routed to the core with the
fresh UUID and a rejected non-UUID id yields the validation error. -/
theorem create_device_id_validation_witness :
    createDeviceHandler uuidOkW "u1" kgW [] ⟨"", "RSA", "L"⟩ =
      createDeviceCore kgW [] "u1" "RSA" "L" ∧
    createDeviceHandler uuidOkW "u1" kgW [] ⟨"x", "RSA", "L"⟩ =
      .badRequest ["invalid UUID format"] := by
  refine ⟨?_, ?_⟩
  · exact ((create_device_id_validation uuidOkW "u1" kgW kgW [] ⟨"", "RSA", "L"⟩).1 rfl).1
  · exact ((create_device_id_validation uuidOkW "u1" kgW kgW [] ⟨"x", "RSA", "L"⟩).2.1
      (by decide) (by decide)).1

/-! ### The read-modify-write gap of the sign endpoint

`DeviceHandler.SignTransaction` fetches a clone, signs on it, then calls
`Update`, which replaces the stored record wholesale after a mere
existence check.  Nothing serializes fetch, sign and store across two
requests, and `Update` compares no counters, so two overlapping flows
can both commit and the last writer wins. -/

/-- With a signer that always succeeds, the sign-and-store tail of the
handler succeeds and replaces the stored record with the advanced copy
of the device it was handed. -/
theorem signFlowStore_always_ok (f : List Nat → List Nat) (r : Repo)
    (dev : SignatureDevice) (data : String)
    (hne : dev.ID ≠ "") (hsome : (lookupR r dev.ID).isSome) :
    signFlowStore (.ok fun m => .ok (f m)) r dev data =
      .ok ((base64Encode (f (strBytes
              (composeSecuredData dev.SignatureCounter data dev.LastSignature))),
            composeSecuredData dev.SignatureCounter data dev.LastSignature),
           replaceR r dev.ID
             { dev with
                LastSignature := base64Encode (f (strBytes
                    (composeSecuredData dev.SignatureCounter data dev.LastSignature))),
                SignatureCounter := dev.SignatureCounter + 1 }) := by
  unfold signFlowStore
  rw [signTransaction_eq_ok]
  simp only [repoUpdate, hne, if_false, hsome, if_true]

/-- Claim C2, counterexample: two sign flows on the device `d1` both
fetch the stored state (counter 0) before either stores.  Both signs
succeed, both `Update` calls succeed — no rejection of any kind
happens — and the final stored counter is 1, not 2: the counter advance
of the first flow is silently discarded, contradicting the claim that
the gap is closed. -/
theorem signing_lost_update_counterexample :
    signFlowFetch [("d1", sampleDevice)] "d1" = .ok sampleDevice ∧
    (∃ r1 r2,
      signFlowStore (.ok fun _ => .ok [1]) [("d1", sampleDevice)] sampleDevice "t1" =
        .ok (("AQ==", "0_t1_ZDE="), r1) ∧
      signFlowStore (.ok fun _ => .ok [2]) r1 sampleDevice "t2" =
        .ok (("Ag==", "0_t2_ZDE="), r2) ∧
      (lookupR r2 "d1").map SignatureDevice.SignatureCounter = some 1) := by
  exact ⟨rfl, _, _, rfl, rfl, rfl⟩

/-- Claim C2, amended: `Update` performs no optimistic-concurrency
check and the handler holds no exclusive section around
fetch → sign → store, so whenever two sign flows on the same device id
both fetch before either stores, both complete without any error and
the final stored counter is the fetched counter plus one — the second
`Update` silently discards the first advance. -/
theorem signing_lost_update (r : Repo) (id : String) (dev : SignatureDevice)
    (f1 f2 : List Nat → List Nat) (data1 data2 : String)
    (hid : dev.ID = id) (hne : id ≠ "") (hl : lookupR r id = some dev) :
    signFlowFetch r id = .ok dev ∧
    ∃ out1 r1 out2 r2 dfin,
      signFlowStore (.ok fun m => .ok (f1 m)) r dev data1 = .ok (out1, r1) ∧
      signFlowStore (.ok fun m => .ok (f2 m)) r1 dev data2 = .ok (out2, r2) ∧
      lookupR r2 id = some dfin ∧
      dfin.SignatureCounter = dev.SignatureCounter + 1 := by
  subst hid
  have hfetch : signFlowFetch r dev.ID = .ok dev := by
    unfold signFlowFetch repoGet
    rw [hl]
  have hsome : (lookupR r dev.ID).isSome := by rw [hl]; rfl
  have hA := signFlowStore_always_ok f1 r dev data1 hne hsome
  have hsome1 : (lookupR (replaceR r dev.ID
      { dev with
          LastSignature := base64Encode (f1 (strBytes
              (composeSecuredData dev.SignatureCounter data1 dev.LastSignature))),
          SignatureCounter := dev.SignatureCounter + 1 }) dev.ID).isSome := by
    rw [lookupR_replaceR_self r dev.ID _ hsome]; rfl
  have hB := signFlowStore_always_ok f2 (replaceR r dev.ID
      { dev with
          LastSignature := base64Encode (f1 (strBytes
              (composeSecuredData dev.SignatureCounter data1 dev.LastSignature))),
          SignatureCounter := dev.SignatureCounter + 1 }) dev data2 hne hsome1
  have hC := lookupR_replaceR_self (replaceR r dev.ID
      { dev with
          LastSignature := base64Encode (f1 (strBytes
              (composeSecuredData dev.SignatureCounter data1 dev.LastSignature))),
          SignatureCounter := dev.SignatureCounter + 1 }) dev.ID
      { dev with
          LastSignature := base64Encode (f2 (strBytes
              (composeSecuredData dev.SignatureCounter data2 dev.LastSignature))),
          SignatureCounter := dev.SignatureCounter + 1 } hsome1
  exact ⟨hfetch, _, _, _, _, _, hA, hB, hC, rfl⟩

/-- Claim C2 (amended), witness: the lost-update execution at a
concrete store holding one device with counter 0. -/
theorem signing_lost_update_witness :
    sampleDevice.ID = "d1" ∧ lookupR [("d1", sampleDevice)] "d1" = some sampleDevice ∧
    (signFlowFetch [("d1", sampleDevice)] "d1" = .ok sampleDevice ∧
     ∃ out1 r1 out2 r2 dfin,
       signFlowStore (.ok fun m => .ok ([3] ++ m)) [("d1", sampleDevice)] sampleDevice "a" =
         .ok (out1, r1) ∧
       signFlowStore (.ok fun m => .ok ([4] ++ m)) r1 sampleDevice "b" = .ok (out2, r2) ∧
       lookupR r2 "d1" = some dfin ∧
       dfin.SignatureCounter = sampleDevice.SignatureCounter + 1) := by
  refine ⟨rfl, rfl, ?_⟩
  exact signing_lost_update [("d1", sampleDevice)] "d1" sampleDevice
    (fun m => [3] ++ m) (fun m => [4] ++ m) "a" "b" rfl (by decide) rfl

/-! ### Chained signing sequences -/

/-- Unfolding equation for `runSigns` on a non-empty call list. -/
theorem runSigns_cons (sr : SignerResult) (data : String)
    (rest : List (SignerResult × String)) (d : SignatureDevice) :
    runSigns ((sr, data) :: rest) d =
      ((SignTransaction sr d data).1 :: (runSigns rest (SignTransaction sr d data).2).1,
       (runSigns rest (SignTransaction sr d data).2).2) := rfl

/-- When every call of a sequence succeeds, the counter advances by the
length of the sequence and the final `LastSignature` is the signature
returned by the last call. -/
theorem runSigns_ok_spec (calls : List (SignerResult × String)) (d : SignatureDevice)
    (hok : ∀ res ∈ (runSigns calls d).1, ∃ v, res = .ok v) :
    (runSigns calls d).2.SignatureCounter = d.SignatureCounter + calls.length ∧
    (calls ≠ [] → ∃ sig sd, (runSigns calls d).1.getLast? = some (.ok (sig, sd)) ∧
       (runSigns calls d).2.LastSignature = sig) := by
  induction calls generalizing d with
  | nil => exact ⟨by simp [runSigns], by simp⟩
  | cons c rest ih =>
      obtain ⟨sr, data⟩ := c
      have h0 : ∃ v, (SignTransaction sr d data).1 = .ok v := by
        refine hok _ ?_
        rw [runSigns_cons]
        exact List.mem_cons_self _ _
      obtain ⟨⟨sig, sd⟩, hv⟩ := h0
      have hst := signTransaction_state_of_ok sr d data sig sd hv
      have hok' : ∀ res ∈ (runSigns rest (SignTransaction sr d data).2).1, ∃ v, res = .ok v := by
        intro res hres
        refine hok res ?_
        rw [runSigns_cons]
        exact List.mem_cons_of_mem _ hres
      have ih' := ih (SignTransaction sr d data).2 hok'
      constructor
      · rw [runSigns_cons]
        have hc : (SignTransaction sr d data).2.SignatureCounter = d.SignatureCounter + 1 := by
          rw [hst.2.2]
        rw [ih'.1, hc]
        simp only [List.length_cons]
        push_cast
        ring
      · intro _
        cases hrest : rest with
        | nil =>
            subst hrest
            refine ⟨sig, sd, ?_, ?_⟩
            · rw [runSigns_cons]
              simp [runSigns, hv]
            · rw [runSigns_cons]
              simp only [runSigns]
              rw [hst.2.2]
        | cons c2 rest2 =>
            subst hrest
            obtain ⟨sig2, sd2, hlast, hfin⟩ := ih'.2 (by simp)
            refine ⟨sig2, sd2, ?_, ?_⟩
            · rw [runSigns_cons]
              obtain ⟨sr2, data2⟩ := c2
              rw [runSigns_cons] at hlast ⊢
              rw [List.getLast?_cons_cons]
              exact hlast
            · rw [runSigns_cons]
              exact hfin

/-- Claim C5: starting from a freshly created device (counter 0), a
sequence of N successful `SignTransaction` calls ends with
`signatureCounter = N` and `lastSignature` equal to the signature the
Nth call returned; moreover each successful call advances the counter
by exactly 1 and each failed call leaves it unchanged, so the counter
never decreases or resets. -/
theorem chained_counter_spec (calls : List (SignerResult × String)) (d : SignatureDevice)
    (h0 : d.SignatureCounter = 0)
    (hok : ∀ res ∈ (runSigns calls d).1, ∃ v, res = .ok v) :
    ((runSigns calls d).2.SignatureCounter = (calls.length : Int) ∧
     (calls ≠ [] → ∃ sig sd, (runSigns calls d).1.getLast? = some (.ok (sig, sd)) ∧
        (runSigns calls d).2.LastSignature = sig)) ∧
    (∀ (sr : SignerResult) (d1 : SignatureDevice) (data : String),
       (∀ sig sd, (SignTransaction sr d1 data).1 = .ok (sig, sd) →
          (SignTransaction sr d1 data).2.SignatureCounter = d1.SignatureCounter + 1) ∧
       (∀ e, (SignTransaction sr d1 data).1 = .error e →
          (SignTransaction sr d1 data).2.SignatureCounter = d1.SignatureCounter)) := by
  constructor
  · have h := runSigns_ok_spec calls d hok
    refine ⟨?_, h.2⟩
    rw [h.1, h0]
    ring
  · intro sr d1 data
    constructor
    · intro sig sd h
      rw [(signTransaction_state_of_ok sr d1 data sig sd h).2.2]
    · intro e h
      rw [signTransaction_state_of_error sr d1 data e h]

/-- Claim C5, witness: two successful calls on a fresh device leave the
counter at 2 and the last signature equal to the second returned
signature. -/
theorem chained_counter_spec_witness :
    sampleDevice.SignatureCounter = 0 ∧
    (runSigns callsW sampleDevice).2.SignatureCounter = 2 ∧
    (runSigns callsW sampleDevice).2.LastSignature = "Ag==" := by
  have hok : ∀ res ∈ (runSigns callsW sampleDevice).1, ∃ v, res = .ok v := by
    intro res hres
    have hlist : (runSigns callsW sampleDevice).1 =
        [.ok ("AQ==", "0_a_ZDE="), .ok ("Ag==", "1_b_AQ==")] := rfl
    rw [hlist] at hres
    simp only [List.mem_cons, List.not_mem_nil, or_false] at hres
    rcases hres with h | h
    · exact ⟨_, h⟩
    · exact ⟨_, h⟩
  have h := (chained_counter_spec callsW sampleDevice rfl hok).1
  refine ⟨rfl, ?_, rfl⟩
  simpa using h.1

/-! ### Wire-visible formats -/

/-- Claim C6: the formats are bit-exact.  Every successful
`SignTransaction` returns the secured data
`"<counter>_<data>_<lastSignature>"` — with the counter printed as an
unsigned decimal whenever it is non-negative and single literal
underscore separators — and a signature that is the standard base64
encoding (with padding, via `base64Encode`) of the raw bytes the signer
produced; every device built by `NewSignatureDevice` starts with
counter 0 and the chain seed equal to the standard base64 encoding of
the device id. -/
theorem wire_formats :
    (∀ (sr : SignerResult) (d : SignatureDevice) (data sig sd : String),
       (SignTransaction sr d data).1 = .ok (sig, sd) →
       sd = goIntRepr d.SignatureCounter ++ "_" ++ data ++ "_" ++ d.LastSignature ∧
       (0 ≤ d.SignatureCounter →
          sd = String.mk (natDecimal d.SignatureCounter.toNat) ++ "_" ++ data ++ "_" ++
               d.LastSignature) ∧
       (∃ sign raw, sr = .ok sign ∧ sign (strBytes sd) = .ok raw ∧
          sig = base64Encode raw)) ∧
    (∀ (kg : Except String (Option (List Nat) × Option (List Nat))) (id alg label : String)
       (dev : SignatureDevice), NewSignatureDevice kg id alg label = .ok dev →
       dev.LastSignature = base64Encode (strBytes id) ∧ dev.SignatureCounter = 0) := by
  constructor
  · intro sr d data sig sd h
    have hst := signTransaction_state_of_ok sr d data sig sd h
    refine ⟨hst.1, ?_, hst.2.1⟩
    intro hc
    rw [hst.1]
    unfold composeSecuredData goIntRepr
    rw [if_neg (by omega)]
  · intro kg id alg label dev h
    unfold NewSignatureDevice at h
    split at h
    · exact absurd h (by simp)
    · split at h
      · exact absurd h (by simp)
      · split at h
        · exact absurd h (by simp)
        · simp only [Except.ok.injEq] at h
          rw [← h]
          exact ⟨rfl, rfl⟩

/-- Claim C6, witness: on a fresh concrete device the secured data is
`0_tx_ZDE=` with the seed `ZDE=` being `base64("d1")`, and the returned
signature `BQ==` is the padded base64 of the raw signature bytes. -/
theorem wire_formats_witness :
    (SignTransaction (.ok fun _ => .ok [5]) sampleDevice "tx").1 = .ok ("BQ==", "0_tx_ZDE=") ∧
    "0_tx_ZDE=" =
      String.mk (natDecimal sampleDevice.SignatureCounter.toNat) ++ "_" ++ "tx" ++ "_" ++
        sampleDevice.LastSignature ∧
    ∃ dev, NewSignatureDevice kgW "d1" "RSA" "L" = .ok dev ∧
      dev.LastSignature = base64Encode (strBytes "d1") ∧ dev.SignatureCounter = 0 := by
  refine ⟨rfl, ?_, ?_⟩
  · exact (wire_formats.1 (.ok fun _ => .ok [5]) sampleDevice "tx" "BQ==" "0_tx_ZDE="
      rfl).2.1 (by decide)
  · exact ⟨_, rfl, wire_formats.2 kgW "d1" "RSA" "L" _ rfl⟩

/-! ### Decimal printing round-trips through the Atoi scan -/

theorem string_data_append (a b : String) : (a ++ b).data = a.data ++ b.data := rfl

theorem digitChar_isDigit (k : Nat) (h : k < 10) : (digitChar k).isDigit := by
  interval_cases k <;> decide

theorem digitChar_toNat (k : Nat) (h : k < 10) : (digitChar k).toNat = 48 + k := by
  interval_cases k <;> decide

theorem natDecimalAux_digits (fuel n : Nat) : ∀ c ∈ natDecimalAux fuel n, c.isDigit := by
  induction fuel generalizing n with
  | zero => intro c hc; simp [natDecimalAux] at hc
  | succ fuel ih =>
      intro c hc
      unfold natDecimalAux at hc
      by_cases h : n < 10
      · rw [if_pos h] at hc
        simp only [List.mem_singleton] at hc
        subst hc
        exact digitChar_isDigit n h
      · rw [if_neg h] at hc
        rcases List.mem_append.mp hc with hm | hm
        · exact ih (n / 10) c hm
        · simp only [List.mem_singleton] at hm
          subst hm
          exact digitChar_isDigit _ (Nat.mod_lt _ (by decide))

theorem isDigit_ne_special (c : Char) (h : c.isDigit) :
    c ≠ '_' ∧ c ≠ '+' ∧ c ≠ '-' := by
  refine ⟨fun he => ?_, fun he => ?_, fun he => ?_⟩ <;>
    (subst he; exact absurd h (by decide))

theorem natDecimalAux_ne_nil (fuel n : Nat) (h : n < fuel) :
    natDecimalAux fuel n ≠ [] := by
  cases fuel with
  | zero => omega
  | succ fuel =>
      unfold natDecimalAux
      by_cases hn : n < 10
      · rw [if_pos hn]; simp
      · rw [if_neg hn]; simp

theorem digitsValCore_append (A B : List Char) (acc : Nat) :
    digitsValCore (A ++ B) acc =
      match digitsValCore A acc with
      | none => none
      | some v => digitsValCore B v := by
  induction A generalizing acc with
  | nil => rfl
  | cons c cs ih =>
      simp only [List.cons_append, digitsValCore, List.append_eq]
      by_cases h : c.isDigit
      · rw [if_pos h, if_pos h, ih]
      · rw [if_neg h, if_neg h]

theorem natDecimalAux_spec (fuel : Nat) :
    ∀ n acc : Nat, n < fuel →
      digitsValCore (natDecimalAux fuel n) acc =
        some (acc * 10 ^ (natDecimalAux fuel n).length + n) := by
  induction fuel with
  | zero => intro n acc h; omega
  | succ fuel ih =>
      intro n acc h
      unfold natDecimalAux
      by_cases hn : n < 10
      · rw [if_pos hn]
        simp only [digitsValCore, digitChar_isDigit n hn, if_true,
          digitChar_toNat n hn, List.length_singleton, pow_one]
        congr 1
        omega
      · rw [if_neg hn]
        have hd : n / 10 < fuel := by omega
        rw [digitsValCore_append, ih (n / 10) acc hd]
        have hm : n % 10 < 10 := Nat.mod_lt _ (by decide)
        simp only [digitsValCore, digitChar_isDigit _ hm, if_true, digitChar_toNat _ hm,
          List.length_append, List.length_singleton]
        congr 1
        have h10 : n / 10 * 10 + n % 10 = n := by omega
        calc (acc * 10 ^ (natDecimalAux fuel (n / 10)).length + n / 10) * 10 +
              (48 + n % 10 - 48)
            = acc * (10 ^ (natDecimalAux fuel (n / 10)).length * 10) +
              (n / 10 * 10 + n % 10) := by ring_nf; omega
          _ = acc * 10 ^ ((natDecimalAux fuel (n / 10)).length + 1) + n := by
              rw [pow_succ, h10]

theorem digitsVal_natDecimal (n : Nat) : digitsVal (natDecimal n) = some n := by
  have hspec := natDecimalAux_spec (n + 1) n 0 (Nat.lt_succ_self n)
  have hne := natDecimalAux_ne_nil (n + 1) n (Nat.lt_succ_self n)
  unfold natDecimal at *
  cases hcs : natDecimalAux (n + 1) n with
  | nil => exact absurd hcs hne
  | cons c cs =>
      rw [hcs] at hspec
      unfold digitsVal
      simpa using hspec

theorem natDecimal_head_digit (n : Nat) :
    ∀ c cs, natDecimal n = c :: cs → c.isDigit := by
  intro c cs h
  have hm : c ∈ natDecimal n := by rw [h]; exact List.mem_cons_self _ _
  exact natDecimalAux_digits (n + 1) n c hm

theorem goAtoiChars_natDecimal (n : Nat) (h : n ≤ maxInt64) :
    goAtoiChars (natDecimal n) = some (Int.ofNat n) := by
  have hne := natDecimalAux_ne_nil (n + 1) n (Nat.lt_succ_self n)
  cases hcs : natDecimal n with
  | nil => exact absurd hcs hne
  | cons c cs =>
      have hdig := natDecimal_head_digit n c cs hcs
      obtain ⟨-, hp, hm⟩ := isDigit_ne_special c hdig
      simp only [goAtoiChars]
      rw [if_neg hp, if_neg hm, ← hcs, digitsVal_natDecimal]
      simp [h]

/-! ### The limited underscore split -/

theorem breakUnderscore_append (A B : List Char) (h : '_' ∉ A) :
    breakUnderscore (A ++ '_' :: B) = some (A, B) := by
  induction A with
  | nil => rfl
  | cons c cs ih =>
      have hc : c ≠ '_' := fun he => h (he ▸ List.mem_cons_self _ _)
      have h' : '_' ∉ cs := fun hm => h (List.mem_cons_of_mem _ hm)
      simp only [List.cons_append, breakUnderscore, List.append_eq]
      rw [if_neg hc, ih h']

theorem breakUnderscore_none_of_not_mem (cs : List Char) (h : '_' ∉ cs) :
    breakUnderscore cs = none := by
  induction cs with
  | nil => rfl
  | cons c rest ih =>
      have hc : c ≠ '_' := fun he => h (he ▸ List.mem_cons_self _ _)
      have h' : '_' ∉ rest := fun hm => h (List.mem_cons_of_mem _ hm)
      simp only [breakUnderscore]
      rw [if_neg hc, ih h']

theorem breakUnderscore_some_inv (cs : List Char) :
    ∀ A B, breakUnderscore cs = some (A, B) → cs = A ++ '_' :: B ∧ '_' ∉ A := by
  induction cs with
  | nil => intro A B h; simp [breakUnderscore] at h
  | cons c rest ih =>
      intro A B h
      unfold breakUnderscore at h
      by_cases hc : c = '_'
      · rw [if_pos hc] at h
        simp only [Option.some.injEq, Prod.mk.injEq] at h
        obtain ⟨h1, h2⟩ := h
        subst h1; subst h2; subst hc
        exact ⟨rfl, by simp⟩
      · rw [if_neg hc] at h
        cases hbr : breakUnderscore rest with
        | none => rw [hbr] at h; simp at h
        | some pr =>
            obtain ⟨a, b⟩ := pr
            rw [hbr] at h
            simp only [Option.some.injEq, Prod.mk.injEq] at h
            obtain ⟨h1, h2⟩ := h
            subst h2
            obtain ⟨hcs, hnm⟩ := ih a b hbr
            subst hcs
            rw [← h1]
            refine ⟨rfl, ?_⟩
            intro hm
            rcases List.mem_cons.mp hm with he | hm2
            · exact hc he.symm
            · exact hnm hm2

theorem string_data_mk (l : List Char) : (String.mk l).data = l := rfl

theorem goSplitUnderscore3_exact (A B C : List Char) (hA : '_' ∉ A) (hB : '_' ∉ B) :
    goSplitUnderscore3 (A ++ '_' :: (B ++ '_' :: C)) = [A, B, C] := by
  have h1 := breakUnderscore_append A (B ++ '_' :: C) hA
  have h2 := breakUnderscore_append B C hB
  simp only [goSplitUnderscore3, h1, h2]

/-- Claim C1 (amended): parsing inverts the secured-data composition
exactly whenever the raw data contains no underscore (the trailing
signature field may contain anything, and the counter is any value in
the Atoi range); the composed counter field round-trips through the
decimal print and scan. -/
theorem parse_inverts_compose (c : Int) (data sig : String)
    (hc : 0 ≤ c) (hle : c.toNat ≤ maxInt64) (hd : '_' ∉ data.data) :
    ParseSecuredData (composeSecuredData c data sig) = .ok (c, data, sig) := by
  obtain ⟨ld⟩ := data
  obtain ⟨ls⟩ := sig
  have hd' : '_' ∉ ld := hd
  have hnd : '_' ∉ natDecimal c.toNat := fun hm =>
    (isDigit_ne_special _ (natDecimalAux_digits _ _ _ hm)).1 rfl
  have hchars : (composeSecuredData c ⟨ld⟩ ⟨ls⟩).data =
      natDecimal c.toNat ++ '_' :: (ld ++ '_' :: ls) := by
    unfold composeSecuredData goIntRepr
    rw [if_neg (show ¬c < 0 by omega)]
    show (((natDecimal c.toNat ++ ['_']) ++ ld) ++ ['_']) ++ ls = _
    simp [List.append_assoc]
  have ha : goAtoiChars (natDecimal c.toNat) = some (Int.ofNat c.toNat) :=
    goAtoiChars_natDecimal c.toNat hle
  unfold ParseSecuredData
  rw [hchars, goSplitUnderscore3_exact _ _ _ hnd hd']
  simp only [goAtoi, string_data_mk, ha]
  have hoc : Int.ofNat c.toNat = c := by
    rw [Int.ofNat_eq_natCast, Int.toNat_of_nonneg hc]
  rw [hoc]

/-- Claim C1, counterexample: the round trip breaks when the raw data
itself contains an underscore.  Composing counter 0, raw data `a_b` and
last signature `c` yields `0_a_b_c`, which parses back to
`(0, "a", "b_c")`, not to `(0, "a_b", "c")` — the limited split assigns
the first two underscores, so the overflow lands in the trailing field,
not in the data field. -/
theorem parse_compose_underscore_counterexample :
    composeSecuredData 0 "a_b" "c" = "0_a_b_c" ∧
    ParseSecuredData (composeSecuredData 0 "a_b" "c") = .ok (0, "a", "b_c") ∧
    ParseSecuredData (composeSecuredData 0 "a_b" "c") ≠ .ok (0, "a_b", "c") := by
  refine ⟨rfl, rfl, ?_⟩
  intro h
  have h2 := (show ParseSecuredData (composeSecuredData 0 "a_b" "c") =
      .ok (0, "a", "b_c") from rfl).symm.trans h
  simp only [Except.ok.injEq, Prod.mk.injEq] at h2
  exact absurd h2.2.1 (by decide)

/-- Claim C1 (amended), witness: the inversion at a concrete
underscore-free raw data value. -/
theorem parse_inverts_compose_witness :
    (0 : Int) ≤ 3 ∧ (3 : Int).toNat ≤ maxInt64 ∧ '_' ∉ "hello".data ∧
    ParseSecuredData (composeSecuredData 3 "hello" "ZDE=") = .ok (3, "hello", "ZDE=") := by
  refine ⟨by decide, by decide, by decide, ?_⟩
  exact parse_inverts_compose 3 "hello" "ZDE=" (by decide) (by decide) (by decide)

/-! ### Failure characterization of `ParseSecuredData` -/

theorem breakUnderscore_eq_none_iff (cs : List Char) :
    breakUnderscore cs = none ↔ '_' ∉ cs := by
  induction cs with
  | nil => simp [breakUnderscore]
  | cons c rest ih =>
      unfold breakUnderscore
      by_cases hc : c = '_'
      · subst hc
        rw [if_pos rfl]
        simp
      · rw [if_neg hc]
        cases hbr : breakUnderscore rest with
        | none =>
            have hnm := ih.mp hbr
            simp [List.mem_cons, hnm, Ne.symm hc]
        | some pr =>
            obtain ⟨a, b⟩ := pr
            have hmem : '_' ∈ rest := by
              obtain ⟨hcs, -⟩ := breakUnderscore_some_inv rest a b hbr
              rw [hcs]
              simp
            simp [List.mem_cons, hmem]

/-- Claim C4, counterexample: `ParseSecuredData` accepts a negative
counter field.  `strconv.Atoi` parses optionally signed integers, so
`-1_a_b` succeeds with counter `-1` even though `-1` is not a valid
non-negative decimal integer, contradicting the claimed failure
condition. -/
theorem parse_negative_counter_counterexample :
    ParseSecuredData "-1_a_b" = .ok (-1, "a", "b") ∧
    ∀ e, ParseSecuredData "-1_a_b" ≠ .error e := by
  refine ⟨rfl, ?_⟩
  intro e h
  have h2 := (show ParseSecuredData "-1_a_b" = .ok (-1, "a", "b") from rfl).symm.trans h
  exact Except.noConfusion h2

/-- Claim C4 (amended): `ParseSecuredData` fails exactly when the input
contains fewer than two underscores (so the limited split yields fewer
than three parts) or when the `strconv.Atoi` scan rejects the first
field; that scan accepts optionally signed decimal integers within the
64-bit range, so in particular negative counters are accepted. -/
theorem parse_failure_characterization (s : String) :
    (∃ e, ParseSecuredData s = .error e) ↔
      s.data.count '_' < 2 ∨
      goAtoiChars ((goSplitUnderscore3 s.data).headD []) = none := by
  cases hb : breakUnderscore s.data with
  | none =>
      have hnm : '_' ∉ s.data := (breakUnderscore_eq_none_iff s.data).mp hb
      have hcount : s.data.count '_' = 0 := by
        rw [List.count_eq_zero]
        exact hnm
      have hparse : ParseSecuredData s = .error "invalid secured data format" := by
        unfold ParseSecuredData
        simp only [goSplitUnderscore3, hb]
      simp [hparse, hcount]
  | some pr =>
      obtain ⟨a, rest⟩ := pr
      obtain ⟨hs1, hna⟩ := breakUnderscore_some_inv s.data a rest hb
      have hca : a.count '_' = 0 := by
        rw [List.count_eq_zero]
        exact hna
      cases hb2 : breakUnderscore rest with
      | none =>
          have hnr : '_' ∉ rest := (breakUnderscore_eq_none_iff rest).mp hb2
          have hcount : s.data.count '_' = 1 := by
            rw [hs1]
            simp [List.count_append, List.count_cons, hca, List.count_eq_zero.mpr hnr]
          have hparse : ParseSecuredData s = .error "invalid secured data format" := by
            unfold ParseSecuredData
            simp only [goSplitUnderscore3, hb, hb2]
          simp [hparse, hcount]
      | some pr2 =>
          obtain ⟨b, rest2⟩ := pr2
          obtain ⟨hr1, hnb⟩ := breakUnderscore_some_inv rest b rest2 hb2
          have hcount : 2 ≤ s.data.count '_' := by
            rw [hs1, hr1]
            simp [List.count_append, List.count_cons, hca]
            omega
          have hsplit : goSplitUnderscore3 s.data = [a, b, rest2] := by
            simp only [goSplitUnderscore3, hb, hb2]
          cases hA : goAtoiChars a with
          | none =>
              have hparse : ParseSecuredData s = .error "invalid signature counter" := by
                unfold ParseSecuredData
                rw [hsplit]
                simp only [goAtoi, string_data_mk, hA]
              simp [hparse, hsplit, hA]
          | some n =>
              have hparse : ParseSecuredData s = .ok (n, String.mk b, String.mk rest2) := by
                unfold ParseSecuredData
                rw [hsplit]
                simp only [goAtoi, string_data_mk, hA]
              constructor
              · intro he
                obtain ⟨e, he⟩ := he
                rw [hparse] at he
                exact Except.noConfusion he
              · intro hr
                rcases hr with hr | hr
                · omega
                · rw [hsplit] at hr
                  simp only [List.headD_cons] at hr
                  rw [hA] at hr
                  exact Option.noConfusion hr

/-- Claim C4 (amended), witness: a two-underscore input with a signed
in-range counter field parses, and the characterization confirms it. -/
theorem parse_failure_characterization_witness :
    ¬(∃ e, ParseSecuredData "12_x_y" = .error e) ∧
    ¬("12_x_y".data.count '_' < 2 ∨
      goAtoiChars ((goSplitUnderscore3 "12_x_y".data).headD []) = none) := by
  constructor
  · exact fun h => ((parse_failure_characterization "12_x_y").mp h).elim
      (fun h2 => absurd h2 (by decide)) (fun h2 => absurd h2 (by decide))
  · exact fun h => absurd ((parse_failure_characterization "12_x_y").mpr h)
      (by
        intro hex
        obtain ⟨e, he⟩ := hex
        have h3 := (show ParseSecuredData "12_x_y" = .ok (12, "x", "y") from rfl).symm.trans he
        exact Except.noConfusion h3)

/-! ### Heap lemmas: clones are backed by fresh cells -/

theorem heapRead_append_lt (h t : Heap) (r : Nat) (hr : r < h.length) :
    heapRead (h ++ t) r = heapRead h r := by
  induction h generalizing r with
  | nil => simp at hr
  | cons b hs ih =>
      cases r with
      | zero => rfl
      | succ r => exact ih r (by simp at hr; omega)

theorem heapRead_write_ne (h : Heap) (q r : Nat) (bs : List Nat) (hne : r ≠ q) :
    heapRead (heapWrite h q bs) r = heapRead h r := by
  induction h generalizing q r with
  | nil => rfl
  | cons b hs ih =>
      cases q with
      | zero =>
          cases r with
          | zero => exact absurd rfl hne
          | succ r => rfl
      | succ q =>
          cases r with
          | zero => rfl
          | succ r => exact ih q r (fun he => hne (by rw [he]))

theorem hclone_spec (h : Heap) (d : HDevice) :
    (∃ t, (hclone h d).1 = h ++ t) ∧
    (∀ r ∈ hrefs (hclone h d).2, h.length ≤ r) := by
  cases hp : d.PubRef with
  | none =>
      cases hq : d.PrivRef with
      | none =>
          refine ⟨⟨[], by simp [hclone, hcloneRef, hp, hq]⟩, ?_⟩
          intro r hr
          simp [hclone, hcloneRef, hrefs, hp, hq] at hr
      | some q =>
          refine ⟨⟨[heapRead h q], by simp [hclone, hcloneRef, hp, hq]⟩, ?_⟩
          intro r hr
          simp [hclone, hcloneRef, hrefs, hp, hq] at hr
          omega
  | some p =>
      cases hq : d.PrivRef with
      | none =>
          refine ⟨⟨[heapRead h p], by simp [hclone, hcloneRef, hp, hq]⟩, ?_⟩
          intro r hr
          simp [hclone, hcloneRef, hrefs, hp, hq] at hr
          omega
      | some q =>
          refine ⟨⟨[heapRead h p, heapRead (h ++ [heapRead h p]) q],
            by simp [hclone, hcloneRef, hp, hq]⟩, ?_⟩
          intro r hr
          simp [hclone, hcloneRef, hrefs, hp, hq] at hr
          rcases hr with hr | hr <;> simp [hr]

theorem derefDevice_of_agree (h h' : Heap) (d : HDevice)
    (hagree : ∀ r ∈ hrefs d, heapRead h' r = heapRead h r) :
    derefDevice h' d = derefDevice h d := by
  unfold derefDevice
  cases hp : d.PubRef with
  | none =>
      cases hq : d.PrivRef with
      | none => simp
      | some q =>
          simp only [hrefs, hp, hq] at hagree
          simp at hagree
          simp [hagree]
  | some p =>
      cases hq : d.PrivRef with
      | none =>
          simp only [hrefs, hp, hq] at hagree
          simp at hagree
          simp [hagree]
      | some q =>
          simp only [hrefs, hp, hq] at hagree
          simp at hagree
          simp [hagree.1, hagree.2]

theorem repoView_agree (st : HState) (h' : Heap)
    (hagree : ∀ kd ∈ st.repo, ∀ r ∈ hrefs kd.2, heapRead h' r = heapRead st.heap r) :
    repoView { heap := h', repo := st.repo } = repoView st := by
  unfold repoView
  apply List.map_congr_left
  intro kd hkd
  rw [derefDevice_of_agree st.heap h' kd.2 (hagree kd hkd)]

theorem repoView_write_avoid (st : HState) (q : Nat) (bs : List Nat)
    (havoid : ∀ kd ∈ st.repo, ∀ r ∈ hrefs kd.2, r ≠ q) :
    repoView { heap := heapWrite st.heap q bs, repo := st.repo } = repoView st :=
  repoView_agree st _ (fun kd hkd r hr =>
    heapRead_write_ne st.heap q r bs (havoid kd hkd r hr))

theorem hGet_ok_spec (st : HState) (id : String) (dev : HDevice) (st' : HState)
    (h : hGet st id = (.ok dev, st')) :
    st'.repo = st.repo ∧ ∀ r ∈ hrefs dev, st.heap.length ≤ r := by
  unfold hGet at h
  split at h
  · simp at h
  · rename_i d0 hl
    simp only [Prod.mk.injEq, Except.ok.injEq] at h
    obtain ⟨h1, h2⟩ := h
    subst h1
    subst h2
    exact ⟨rfl, (hclone_spec st.heap d0).2⟩

theorem hListAux_spec (ds : List HDevice) (h : Heap) :
    (∃ t, (hListAux h ds).1 = h ++ t) ∧
    ∀ dv ∈ (hListAux h ds).2, ∀ r ∈ hrefs dv, h.length ≤ r := by
  induction ds generalizing h with
  | nil => exact ⟨⟨[], by simp [hListAux]⟩, by simp [hListAux]⟩
  | cons d ds ih =>
      obtain ⟨⟨t1, ht1⟩, hfresh1⟩ := hclone_spec h d
      obtain ⟨⟨t2, ht2⟩, hrest⟩ := ih (hclone h d).1
      constructor
      · refine ⟨t1 ++ t2, ?_⟩
        simp only [hListAux]
        rw [ht2, ht1, List.append_assoc]
      · intro dv hdv r hr
        simp only [hListAux, List.mem_cons] at hdv
        rcases hdv with hdv | hdv
        · subst hdv
          exact hfresh1 r hr
        · have hge := hrest dv hdv r hr
          rw [ht1, List.length_append] at hge
          omega

theorem hListDevices_spec (st : HState) (devs : List HDevice) (st' : HState)
    (h : hListDevices st = (devs, st')) :
    st'.repo = st.repo ∧ ∀ dv ∈ devs, ∀ r ∈ hrefs dv, st.heap.length ≤ r := by
  unfold hListDevices at h
  simp only [Prod.mk.injEq] at h
  obtain ⟨h1, h2⟩ := h
  subst h2
  constructor
  · rfl
  · intro dv hdv
    exact (hListAux_spec (st.repo.map (fun kd => kd.2)) st.heap).2 dv (by rw [h1]; exact hdv)

/-- Unfolding equation for `hCreate` on a present device. -/
theorem hCreate_some (st : HState) (d : HDevice) :
    hCreate st (some d) =
      if d.ID = "" then .error "device ID cannot be empty"
      else if (hLookup st.repo d.ID).isSome then .error "device with this ID already exists"
      else .ok { heap := (hclone st.heap d).1,
                 repo := st.repo ++ [(d.ID, (hclone st.heap d).2)] } := rfl

/-- Unfolding equation for `hUpdate` on a present device. -/
theorem hUpdate_some (st : HState) (d : HDevice) :
    hUpdate st (some d) =
      if d.ID = "" then .error "device ID cannot be empty"
      else if (hLookup st.repo d.ID).isSome then
        .ok { heap := (hclone st.heap d).1,
              repo := hReplace st.repo d.ID (hclone st.heap d).2 }
      else .error "device not found" := rfl

theorem hCreate_ok_spec (st : HState) (d : HDevice) (st' : HState)
    (h : hCreate st (some d) = .ok st') :
    st'.repo = st.repo ++ [(d.ID, (hclone st.heap d).2)] := by
  rw [hCreate_some] at h
  split at h
  · exact absurd h (by simp)
  · split at h
    · exact absurd h (by simp)
    · simp only [Except.ok.injEq] at h
      subst h
      rfl

theorem hUpdate_ok_spec (st : HState) (d : HDevice) (st' : HState)
    (h : hUpdate st (some d) = .ok st') :
    st'.repo = hReplace st.repo d.ID (hclone st.heap d).2 := by
  rw [hUpdate_some] at h
  split at h
  · exact absurd h (by simp)
  · split at h
    · simp only [Except.ok.injEq] at h
      subst h
      rfl
    · exact absurd h (by simp)

theorem hReplace_mem (rs : List (String × HDevice)) (id : String) (c : HDevice) :
    ∀ kd ∈ hReplace rs id c, kd ∈ rs ∨ kd.2 = c := by
  induction rs with
  | nil => simp [hReplace]
  | cons kd0 rest ih =>
      intro kd hkd
      obtain ⟨k0, d0⟩ := kd0
      unfold hReplace at hkd
      by_cases hk : k0 = id
      · rw [if_pos hk] at hkd
        rcases List.mem_cons.mp hkd with he | hm
        · right; rw [he]
        · rcases ih kd hm with h | h
          · left; exact List.mem_cons_of_mem _ h
          · right; exact h
      · rw [if_neg hk] at hkd
        rcases List.mem_cons.mp hkd with he | hm
        · left; rw [he]; exact List.mem_cons_self _ _
        · rcases ih kd hm with h | h
          · left; exact List.mem_cons_of_mem _ h
          · right; exact h

/-- Claim C8: defensive copying at the store boundary.  Every device
handed out by `Get` or `List` is a deep independent copy: writing any
byte array reachable from it (its public- or private-key slice) leaves
the observable content of the whole store — hence every subsequent
`Get` — unchanged.  Symmetrically, `Create` and `Update` store a deep
copy of their argument: provided the argument is a real device (its
slices are allocated cells) that does not already alias the store — as
holds for every device the API itself hands out — writing through the
argument after the call leaves the stored content unchanged.  Scalar
fields are copied by value, so only the two slice references carry
aliasing. -/
theorem store_hands_out_independent_copies (st : HState) (id : String) (d : HDevice)
    (hwf : wfHState st) :
    (∀ dev st', hGet st id = (.ok dev, st') →
       ∀ r ∈ hrefs dev, ∀ bs,
         repoView { heap := heapWrite st'.heap r bs, repo := st'.repo } = repoView st') ∧
    (∀ devs st', hListDevices st = (devs, st') →
       ∀ dv ∈ devs, ∀ r ∈ hrefs dv, ∀ bs,
         repoView { heap := heapWrite st'.heap r bs, repo := st'.repo } = repoView st') ∧
    (refsBelow st.heap.length d →
     (∀ q ∈ hrefs d, ∀ kd ∈ st.repo, q ∉ hrefs kd.2) →
      (∀ st', hCreate st (some d) = .ok st' →
         ∀ q ∈ hrefs d, ∀ bs,
           repoView { heap := heapWrite st'.heap q bs, repo := st'.repo } = repoView st') ∧
      (∀ st', hUpdate st (some d) = .ok st' →
         ∀ q ∈ hrefs d, ∀ bs,
           repoView { heap := heapWrite st'.heap q bs, repo := st'.repo } = repoView st')) := by
  refine ⟨?_, ?_, ?_⟩
  · intro dev st' hget r hr bs
    obtain ⟨hrepo, hfresh⟩ := hGet_ok_spec st id dev st' hget
    apply repoView_write_avoid
    intro kd hkd r2 hr2
    rw [hrepo] at hkd
    have h2 := hwf kd hkd r2 hr2
    have h3 := hfresh r hr
    omega
  · intro devs st' hlist dv hdv r hr bs
    obtain ⟨hrepo, hfresh⟩ := hListDevices_spec st devs st' hlist
    apply repoView_write_avoid
    intro kd hkd r2 hr2
    rw [hrepo] at hkd
    have h2 := hwf kd hkd r2 hr2
    have h3 := hfresh dv hdv r hr
    omega
  · intro hbelow hdisj
    constructor
    · intro st' hc q hq bs
      have hrepo := hCreate_ok_spec st d st' hc
      apply repoView_write_avoid
      intro kd hkd r2 hr2
      rw [hrepo] at hkd
      rcases List.mem_append.mp hkd with hold | hnew
      · exact fun he => (hdisj q hq kd hold) (he ▸ hr2)
      · simp only [List.mem_singleton] at hnew
        subst hnew
        have h2 := (hclone_spec st.heap d).2 r2 hr2
        have h3 := hbelow q hq
        omega
    · intro st' hu q hq bs
      have hrepo := hUpdate_ok_spec st d st' hu
      apply repoView_write_avoid
      intro kd hkd r2 hr2
      rw [hrepo] at hkd
      rcases hReplace_mem st.repo d.ID (hclone st.heap d).2 kd hkd with hold | hcl
      · exact fun he => (hdisj q hq kd hold) (he ▸ hr2)
      · rw [hcl] at hr2
        have h2 := (hclone_spec st.heap d).2 r2 hr2
        have h3 := hbelow q hq
        omega

/-- Heap for the C8 witness: six allocated byte cells. -/
def heapW : Heap := [[1], [2], [3], [4], [5], [6]]

/-- Stored device 1 of the C8 witness. -/
def hdev1 : HDevice :=
  { ID := "d1", Label := "L1", Algorithm := "RSA", SignatureCounter := 0,
    LastSignature := "ZDE=", PubRef := some 0, PrivRef := some 1 }

/-- Stored device 2 of the C8 witness. -/
def hdev2 : HDevice :=
  { ID := "d2", Label := "L2", Algorithm := "ECC", SignatureCounter := 3,
    LastSignature := "AQ==", PubRef := some 2, PrivRef := some 3 }

/-- Caller-held argument device of the C8 witness: allocated cells that
do not alias the store. -/
def hdArg : HDevice :=
  { ID := "d3", Label := "L3", Algorithm := "RSA", SignatureCounter := 0,
    LastSignature := "Ag==", PubRef := some 4, PrivRef := some 5 }

/-- Concrete repository state of the C8 witness. -/
def stW : HState := { heap := heapW, repo := [("d1", hdev1), ("d2", hdev2)] }

/-- Claim C8, witness: on the concrete state, writing through the fresh
public-key cell of the device `Get` returned (cell 6, freshly
allocated by the clone) leaves the observable store content
unchanged. -/
theorem store_hands_out_independent_copies_witness :
    wfHState stW ∧
    repoView { heap := heapWrite (hGet stW "d1").2.heap 6 [9],
               repo := (hGet stW "d1").2.repo } = repoView (hGet stW "d1").2 := by
  have hwf : wfHState stW := by decide
  refine ⟨hwf, ?_⟩
  exact (store_hands_out_independent_copies stW "d1" hdArg hwf).1 _ _ rfl 6 (by decide) [9]

end SigningService
